import Mathlib

/-!
Verification development for the unicode-excel-converter repository.

The definitions below are a shallow embedding of the Go source:
* `internal/converter/vni.go` — the VNI combining-mark decoder,
* `internal/converter/tcvn3.go` — the TCVN3 precomposed-glyph decoder,
* the `DetectEncoding` heuristic of the engine package,
* the run-transformation body of `Processor.worker` and the
  sheet-validation prefix of `Processor.Run` in
  `internal/engine/processor.go`.

Go strings are sequences of runes here modelled as `List Char`; Go maps
whose keys are runes are modelled as functions by `if`/`match` chains
enumerating exactly the map entries of the source.  The Go string tags
`"circumflex"`, `"grave"`, ... used as tone names are modelled by the
inductive type `ToneType` with one constructor per tag.
-/

namespace VniExcel

/-- Go strings viewed as rune sequences. -/
abbrev Str := List Char

/-- The tone-type tags of `vni.go` (Go uses the string literals
"circumflex", "grave", "acute", "hook", "tilde", "dot", "horn"). -/
inductive ToneType where
  | circumflex | grave | acute | hook | tilde | dot | horn
deriving DecidableEq, Repr

/-- `vniToneMarkers` map of vni.go: marker rune -> tone type. -/
def vniToneMarkers (c : Char) : Option ToneType :=
  if c = 'Â' ∨ c = 'â' ∨ c = 'Ê' ∨ c = 'ê' ∨ c = 'Ô' ∨ c = 'ô' then some .circumflex
  else if c = 'Ø' ∨ c = 'ø' then some .grave
  else if c = 'Ù' ∨ c = 'ù' then some .acute
  else if c = 'Û' ∨ c = 'û' then some .hook
  else if c = 'Ü' ∨ c = 'ü' then some .tilde
  else if c = 'Ï' ∨ c = 'ï' then some .dot
  else if c = 'Ö' ∨ c = 'ö' then some .horn
  else none

/-- One inner map of the two vowel tables: the entry for each tone type
(`none` where the Go inner map has no key).  No inner map of either
table carries a horn entry. -/
def toneEntries (cf gr ac ho ti dt : Option Char) : ToneType → Option Char
  | .circumflex => cf
  | .grave => gr
  | .acute => ac
  | .hook => ho
  | .tilde => ti
  | .dot => dt
  | .horn => none

/-- `vowelCombinations` map of vni.go: base vowel -> tone type -> combined
vowel.  Inner-map order: circumflex, grave, acute, hook, tilde, dot;
i/u/y have no circumflex entry. -/
def vowelCombinations (c : Char) (t : ToneType) : Option Char :=
  if c = 'a' then
    toneEntries (some 'â') (some 'à') (some 'á') (some 'ả') (some 'ã') (some 'ạ') t
  else if c = 'A' then
    toneEntries (some 'Â') (some 'À') (some 'Á') (some 'Ả') (some 'Ã') (some 'Ạ') t
  else if c = 'e' then
    toneEntries (some 'ê') (some 'è') (some 'é') (some 'ẻ') (some 'ẽ') (some 'ẹ') t
  else if c = 'E' then
    toneEntries (some 'Ê') (some 'È') (some 'É') (some 'Ẻ') (some 'Ẽ') (some 'Ẹ') t
  else if c = 'i' then
    toneEntries none (some 'ì') (some 'í') (some 'ỉ') (some 'ĩ') (some 'ị') t
  else if c = 'I' then
    toneEntries none (some 'Ì') (some 'Í') (some 'Ỉ') (some 'Ĩ') (some 'Ị') t
  else if c = 'o' then
    toneEntries (some 'ô') (some 'ò') (some 'ó') (some 'ỏ') (some 'õ') (some 'ọ') t
  else if c = 'O' then
    toneEntries (some 'Ô') (some 'Ò') (some 'Ó') (some 'Ỏ') (some 'Õ') (some 'Ọ') t
  else if c = 'u' then
    toneEntries none (some 'ù') (some 'ú') (some 'ủ') (some 'ũ') (some 'ụ') t
  else if c = 'U' then
    toneEntries none (some 'Ù') (some 'Ú') (some 'Ủ') (some 'Ũ') (some 'Ụ') t
  else if c = 'y' then
    toneEntries none (some 'ỳ') (some 'ý') (some 'ỷ') (some 'ỹ') (some 'ỵ') t
  else if c = 'Y' then
    toneEntries none (some 'Ỳ') (some 'Ý') (some 'Ỷ') (some 'Ỹ') (some 'Ỵ') t
  else none

/-- `combinedVowelTones` map of vni.go: already-composed vowel -> tone
type -> doubly-composed vowel.  The Go inner maps carry only the five
tones grave/acute/hook/tilde/dot. -/
def combinedVowelTones (c : Char) (t : ToneType) : Option Char :=
  if c = 'Â' then
    toneEntries none (some 'Ầ') (some 'Ấ') (some 'Ẩ') (some 'Ẫ') (some 'Ậ') t
  else if c = 'â' then
    toneEntries none (some 'ầ') (some 'ấ') (some 'ẩ') (some 'ẫ') (some 'ậ') t
  else if c = 'Ê' then
    toneEntries none (some 'Ề') (some 'Ế') (some 'Ể') (some 'Ễ') (some 'Ệ') t
  else if c = 'ê' then
    toneEntries none (some 'ề') (some 'ế') (some 'ể') (some 'ễ') (some 'ệ') t
  else if c = 'Ô' then
    toneEntries none (some 'Ồ') (some 'Ố') (some 'Ổ') (some 'Ỗ') (some 'Ộ') t
  else if c = 'ô' then
    toneEntries none (some 'ồ') (some 'ố') (some 'ổ') (some 'ỗ') (some 'ộ') t
  else if c = 'Ă' then
    toneEntries none (some 'Ằ') (some 'Ắ') (some 'Ẳ') (some 'Ẵ') (some 'Ặ') t
  else if c = 'ă' then
    toneEntries none (some 'ằ') (some 'ắ') (some 'ẳ') (some 'ẵ') (some 'ặ') t
  else if c = 'Ơ' then
    toneEntries none (some 'Ờ') (some 'Ớ') (some 'Ở') (some 'Ỡ') (some 'Ợ') t
  else if c = 'ơ' then
    toneEntries none (some 'ờ') (some 'ớ') (some 'ở') (some 'ỡ') (some 'ợ') t
  else if c = 'Ư' then
    toneEntries none (some 'Ừ') (some 'Ứ') (some 'Ử') (some 'Ữ') (some 'Ự') t
  else if c = 'ư' then
    toneEntries none (some 'ừ') (some 'ứ') (some 'ử') (some 'ữ') (some 'ự') t
  else none

/-- `combineToneStandard` of vni.go: first the composed-vowel table,
then the base-vowel table. -/
def combineToneStandard (lastChar : Char) (toneType : ToneType) : Option Char :=
  match combinedVowelTones lastChar toneType with
  | some combined => some combined
  | none => vowelCombinations lastChar toneType

/-- `checkPrevVowel` of vni.go: whether the last output rune is a key of
either vowel table (Go tests map-key membership). -/
def checkPrevVowel (result : Str) : Bool :=
  match result.getLast? with
  | none => false
  | some lastChar =>
    (lastChar ∈ ['a', 'A', 'e', 'E', 'i', 'I', 'o', 'O', 'u', 'U', 'y', 'Y']
      || lastChar ∈ ['Â', 'â', 'Ê', 'ê', 'Ô', 'ô', 'Ă', 'ă', 'Ơ', 'ơ', 'Ư', 'ư'])

/-- `combineToneSpecial` of vni.go.  Go reads `result[len(result)-1]`,
so it is only ever invoked with a non-empty buffer; the `getD` default
covers the impossible empty case. -/
def combineToneSpecial (result : Str) (r : Char) (toneType : ToneType) :
    Option Str :=
  let lastChar := result.getLast?.getD (Char.ofNat 0)
  if (r = 'Ö' ∨ r = 'ö') ∧ toneType = .horn then
    if checkPrevVowel result then
      some (result ++ ['ệ'])
    else if r = 'Ö' then
      some (result ++ ['Ư'])
    else
      some (result ++ ['ư'])
  else
    match (if r = 'Â' ∨ r = 'â' then vowelCombinations lastChar .circumflex else none) with
    | some combined => some (result.dropLast ++ [combined])
    | none =>
      match (if r = 'Ø' ∨ r = 'ø' then combineToneStandard lastChar .grave else none) with
      | some combined => some (result.dropLast ++ [combined])
      | none =>
        match (if r = 'Ï' ∨ r = 'ï' then combineToneStandard lastChar .dot else none) with
        | some combined => some (result.dropLast ++ [combined])
        | none => none

/-- `tryCombineTone` of vni.go: `none` models the Go `(result, false)`
return; `some updated` models `(updated, true)`. -/
def tryCombineTone (result : Str) (r : Char) (toneType : ToneType) :
    Option Str :=
  match result.getLast? with
  | none => none
  | some lastChar =>
    match combineToneStandard lastChar toneType with
    | some combined => some (result.dropLast ++ [combined])
    | none => combineToneSpecial result r toneType

/-- `tryCombineOther` of vni.go: the Đ/đ substitutions and the breve
marker applied to a preceding a/A. -/
def tryCombineOther (result : Str) (r : Char) : Option Str :=
  if r = 'Ñ' then some (result ++ ['Đ'])
  else if r = 'ñ' then some (result ++ ['đ'])
  else if (r = 'Å' ∨ r = 'å') ∧ result ≠ [] then
    if result.getLast?.getD (Char.ofNat 0) = 'A' then
      some (result.dropLast ++ ['Ă'])
    else if result.getLast?.getD (Char.ofNat 0) = 'a' then
      some (result.dropLast ++ ['ă'])
    else none
  else none

/-- One iteration of the scan loop of `convertVNICombining`. -/
def convStep (result : Str) (r : Char) : Str :=
  match (match vniToneMarkers r with
         | some toneType => tryCombineTone result r toneType
         | none => none) with
  | some updated => updated
  | none =>
    match tryCombineOther result r with
    | some updated => updated
    | none => result ++ [r]

/-- Non-overlapping left-to-right replacement of the two-rune pattern
`a b` by `rep`, as `strings.ReplaceAll` does for the two-rune patterns
of `preprocessVNI`. -/
def replaceSeq2 (a b : Char) (rep : Str) : Str → Str
  | [] => []
  | [x] => [x]
  | x :: y :: rest' =>
    if x = a ∧ y = b then rep ++ replaceSeq2 a b rep rest'
    else x :: replaceSeq2 a b rep (y :: rest')

/-- `preprocessVNI` of vni.go. -/
def preprocessVNI (l : Str) : Str :=
  replaceSeq2 'Ö' 'ø' ['Ừ']
    (replaceSeq2 'Ö' 'O' ['Ư', 'Ơ']
      (replaceSeq2 'Ö' 'Ô' ['Ư', 'Ơ'] l))

/-- `convertVNICombining` of vni.go: pre-pass then the rune scan. -/
def convertVNICombining (l : Str) : Str :=
  (preprocessVNI l).foldl convStep []

/-- The `legacyReplacer` of `NewVNIConverter`: every pattern and every
replacement is a single rune, so the Go `strings.Replacer` is a rune
map. -/
def legacyMap (c : Char) : Char :=
  if c = 'ñ' then 'đ'
  else if c = '®' then 'Đ'
  else if c = 'Ñ' then 'Đ'
  else if c = '\u001E' then 'ả'
  else if c = 'µ' then 'ạ'
  else if c = 'Ç' then 'ầ'
  else if c = 'È' then 'ẩ'
  else if c = 'É' then 'ẫ'
  else if c = 'Ë' then 'ậ'
  else if c = 'Ê' then 'ấ'
  else c

/-- `VNIConverter.ToUnicode` of vni.go: combining conversion followed by
the legacy đ/Đ replacement pass. -/
def vniToUnicode (l : Str) : Str :=
  (convertVNICombining l).map legacyMap

/-- The `strings.Replacer` of `NewTCVN3Converter` (tcvn3.go).  All
patterns are single runes; duplicated patterns in the source carry
identical replacements, so first-match-wins equals this rune map.
Note the source maps `ó`/`ò` to themselves and `ô` to `õ`. -/
def tcvn3Map (c : Char) : Char :=
  if c = '¸' then 'á'
  else if c = 'µ' then 'à'
  else if c = '¶' then 'ả'
  else if c = '·' then 'ã'
  else if c = '¹' then 'ạ'
  else if c = '¢' then 'â'
  else if c = 'Ê' then 'ấ'
  else if c = '¨' then 'ă'
  else if c = '¾' then 'ắ'
  else if c = '»' then 'ằ'
  else if c = '¼' then 'ẳ'
  else if c = '½' then 'ẵ'
  else if c = 'Æ' then 'ặ'
  else if c = 'Ç' then 'ầ'
  else if c = 'È' then 'ẩ'
  else if c = 'É' then 'ẫ'
  else if c = 'Ë' then 'ậ'
  else if c = 'Ñ' then 'é'
  else if c = 'Ì' then 'è'
  else if c = 'Ð' then 'ẻ'
  else if c = 'Î' then 'ẽ'
  else if c = 'Ï' then 'ẹ'
  else if c = '£' then 'ê'
  else if c = 'Õ' then 'ế'
  else if c = 'Ò' then 'ề'
  else if c = 'Ó' then 'ể'
  else if c = 'Ô' then 'ễ'
  else if c = 'Ö' then 'ệ'
  else if c = 'Ý' then 'í'
  else if c = 'Ø' then 'ì'
  else if c = 'Ü' then 'ỉ'
  else if c = 'Þ' then 'ĩ'
  else if c = 'ß' then 'ị'
  else if c = 'ó' then 'ó'
  else if c = 'ò' then 'ò'
  else if c = 'ô' then 'õ'
  else if c = 'õ' then 'ọ'
  else if c = 'ö' then 'ô'
  else if c = '®' then 'đ'
  else c

/-- `TCVN3Converter.ToUnicode` of tcvn3.go. -/
def tcvn3ToUnicode (l : Str) : Str :=
  l.map tcvn3Map

/-- `converter.EncodingType` (typed string constants in Go). -/
inductive EncodingType where
  | VNI | TCVN3 | Auto | Unknown
deriving DecidableEq, Repr

/-- The VNI characteristic-character set of `DetectEncoding`. -/
def vniDetectChars : Str :=
  ['Â', 'Ê', 'Ô', 'Ø', 'Ù', 'Û', 'Ü', 'Ï', 'Å', 'Ö', 'ñ', 'Ñ',
   'â', 'ê', 'ô', 'ø', 'ù', 'û', 'ü', 'ï', 'å', 'ö']

/-- The TCVN3 characteristic-character set of `DetectEncoding`. -/
def tcvn3DetectChars : Str := ['ö', 'ô', 'â', 'ê', 'î', '¹']

/-- `strings.ContainsAny`: does `text` contain any rune of `set`? -/
def containsAnyChars (text chars : Str) : Bool :=
  text.any (fun c => chars.contains c)

/-- The font-name prefix that marks VNI fonts. -/
def vniFontPrefix : Str := ['V', 'N', 'I', '-']

/-- The font-name prefix that marks TCVN3 fonts. -/
def tcvn3FontPrefix : Str := ['.', 'V', 'n']

/-- `DetectEncoding` of the engine package: font-name prefix first,
then the VNI content set, then the TCVN3 content set, else Unknown.
(The repository holds two draft revisions of this function with the
same structure, differing only in the VNI character set; this is the
first revision.) -/
def DetectEncoding (fontName text : Str) : EncodingType :=
  if vniFontPrefix.isPrefixOf fontName then .VNI
  else if tcvn3FontPrefix.isPrefixOf fontName then .TCVN3
  else if containsAnyChars text vniDetectChars then .VNI
  else if containsAnyChars text tcvn3DetectChars then .TCVN3
  else .Unknown

/-- `excelize.Font`, restricted to the fields the engine touches; the
defaults are Go zero values. -/
structure Font where
  family : Str := []
  size : Nat := 0
  bold : Bool := false
  italic : Bool := false
  color : Str := []
deriving DecidableEq, Repr

/-- `excelize.RichTextRun`: one styled run (nil font pointer modelled
as `none`). -/
structure RichTextRun where
  text : Str
  font : Option Font := none
deriving DecidableEq, Repr

/-- `engine.Job`: one cell of work. -/
structure Job where
  sheetName : Str := []
  axis : Str := []
  text : Str := []
  richText : List RichTextRun := []
  isRich : Bool := false
deriving DecidableEq, Repr

/-- `engine.Result` as produced by `Processor.worker` (the worker never
sets the error field). -/
structure Result where
  job : Job
  converted : Str := []
  newRuns : List RichTextRun := []
deriving DecidableEq, Repr

/-- `engine.FontMap`: legacy font name -> modern font name. -/
def FontMap (fontName : Str) : Option Str :=
  if fontName = "VNI-Times".data then some "Times New Roman".data
  else if fontName = "VNI-Arial".data then some "Arial".data
  else if fontName = "VNI-Helve".data then some "Helvetica".data
  else if fontName = "VNI-Hobo".data then some "Hobo Std".data
  else if fontName = ".VnTime".data then some "Times New Roman".data
  else if fontName = ".VnTimeH".data then some "Times New Roman".data
  else if fontName = ".VnArial".data then some "Arial".data
  else if fontName = ".VnHelve".data then some "Helvetica".data
  else none

/-- The fixed default font of the worker ("Arial"). -/
def arialFont : Str := "Arial".data

/-- The font name the worker feeds to `DetectEncoding`: the run's font
family, or the empty string for a nil font. -/
def fontFamilyOf (run : RichTextRun) : Str :=
  match run.font with
  | some f => f.family
  | none => []

/-- The run's bold attribute (false for a nil font, Go's zero value). -/
def boldOf (run : RichTextRun) : Bool :=
  match run.font with
  | some f => f.bold
  | none => false

/-- The run's italic attribute (false for a nil font). -/
def italicOf (run : RichTextRun) : Bool :=
  match run.font with
  | some f => f.italic
  | none => false

/-- The run's color attribute (empty for a nil font). -/
def colorOf (run : RichTextRun) : Str :=
  match run.font with
  | some f => f.color
  | none => []

/-- The per-run body of the loop in `Processor.worker`
(processor.go, rich-text branch): detect the encoding from the run's
font name and text; on VNI or TCVN3 decode the text and remap the font
family through `FontMap` (defaulting to Arial, creating the font struct
if nil); otherwise return the run unchanged. -/
def transformRun (run : RichTextRun) : RichTextRun :=
  let fontName := fontFamilyOf run
  match DetectEncoding fontName run.text with
  | .VNI =>
    let f := run.font.getD {}
    let fam := match FontMap fontName with
               | some mapped => mapped
               | none => arialFont
    { run with text := vniToUnicode run.text, font := some { f with family := fam } }
  | .TCVN3 =>
    let f := run.font.getD {}
    let fam := match FontMap fontName with
               | some mapped => mapped
               | none => arialFont
    { run with text := tcvn3ToUnicode run.text, font := some { f with family := fam } }
  | _ => run

/-- `Processor.worker` on one job: the rich-text branch maps
`transformRun` over the runs; the plain branch passes the text through
unchanged. -/
def workerProcess (job : Job) : Result :=
  if job.richText.length > 0 then
    { job := { job with isRich := true },
      newRuns := job.richText.map transformRun }
  else
    { job := { job with isRich := false }, converted := job.text }

/-- One spreadsheet cell as the dispatcher sees it: the cell's plain
text value, its rich-text runs (empty when `GetCellRichText` reports
none), and the cell style's font family. -/
structure CellData where
  text : Str := []
  richRuns : List RichTextRun := []
  styleFontFamily : Str := []
deriving DecidableEq, Repr

/-- One sheet: a name and its rows of cells in scan order. -/
structure Sheet where
  name : Str
  rows : List (List CellData) := []
deriving DecidableEq, Repr

/-- The abstract spreadsheet document (the excelize file handle). -/
structure Doc where
  sheets : List Sheet := []
deriving DecidableEq, Repr

/-- `GetSheetList`. -/
def sheetNames (d : Doc) : List Str :=
  d.sheets.map (fun s => s.name)

/-- The sheet-selection and validation prefix of `Processor.Run`
(processor.go): a non-empty requested sheet name must occur in the
document's sheet list, otherwise the run aborts with an error before
anything is dispatched; an empty request selects every sheet. -/
def selectSheets (d : Doc) (requested : Str) : Except Str (List Str) :=
  if requested ≠ [] then
    if (sheetNames d).contains requested then .ok [requested]
    else .error ("sheet not found".data)
  else .ok (sheetNames d)

/-- `strings.TrimSpace(text) == ""`: the text is all whitespace. -/
def trimmedEmpty (l : Str) : Bool :=
  l.all (fun c => c.isWhitespace)

/-- Spreadsheet column name (models `excelize.CoordinatesToCellName`
column letters: 1 -> A, 26 -> Z, 27 -> AA). -/
def colName : Nat → Str
  | 0 => []
  | n + 1 => colName (n / 26) ++ [Char.ofNat (65 + n % 26)]
decreasing_by exact Nat.lt_succ_of_le (Nat.div_le_self n 26)

/-- Cell axis such as "B3" (models `excelize.CoordinatesToCellName`). -/
def axisName (col row : Nat) : Str :=
  colName col ++ Nat.toDigits 10 row

/-- The runs the dispatcher attaches to a job: the cell's own rich-text
runs when present, else one synthetic run from the plain text and the
cell style's font family (size 11, as in processor.go). -/
def cellRuns (c : CellData) : List RichTextRun :=
  if c.richRuns.length > 0 then c.richRuns
  else [{ text := c.text, font := some { family := c.styleFontFamily, size := 11 } }]

/-- The jobs the dispatcher emits for one row: one job per cell whose
trimmed text is non-empty, in column order. -/
def rowJobs (sheetName : Str) (rowIdx : Nat) (cells : List CellData) : List Job :=
  cells.enum.filterMap (fun p =>
    if trimmedEmpty p.2.text then none
    else some { sheetName := sheetName,
                axis := axisName (p.1 + 1) rowIdx,
                text := p.2.text,
                richText := cellRuns p.2,
                isRich := p.2.richRuns.length > 0 })

/-- The jobs the dispatcher emits for one sheet, rows top to bottom. -/
def sheetJobs (s : Sheet) : List Job :=
  s.rows.enum.flatMap (fun p => rowJobs s.name (p.1 + 1) p.2)

/-- All jobs dispatched for the selected sheet names (a name that no
longer resolves is skipped, as the Go dispatcher does on a row-iterator
error). -/
def dispatchJobs (d : Doc) (names : List Str) : List Job :=
  names.flatMap (fun n =>
    match d.sheets.find? (fun s => s.name = n) with
    | some s => sheetJobs s
    | none => [])

/-- Sequentialised model of `Processor.Run` up to collection: validate
the requested sheet, dispatch one job per non-blank cell, and process
every job with the worker.  The error of `selectSheets` is returned
before any job exists, so an error leaves the document untouched and
produces no results. -/
def RunModel (d : Doc) (requested : Str) : Except Str (List Result) :=
  match selectSheets d requested with
  | .error e => .error e
  | .ok names => .ok ((dispatchJobs d names).map workerProcess)

/-- A character on which the VNI decoder can only pass through: not a
tone marker, not one of the four runes `tryCombineOther` reacts to, and
not a key of the legacy replacer. -/
def vniInert (c : Char) : Bool :=
  (vniToneMarkers c).isNone
    && !(c == 'Ñ' || c == 'ñ' || c == 'Å' || c == 'å')
    && legacyMap c == c

/-- A character outside the TCVN3 substitution table (the table's
self-mapping entries included, since they cannot change text). -/
def tcvn3Inert (c : Char) : Bool :=
  tcvn3Map c == c

/-- A legacy-encoded styled run: VNI text `aÙ` ("á") under font
VNI-Times. -/
def runLegacy : RichTextRun :=
  { text := ['a', 'Ù'], font := some { family := "VNI-Times".data } }

/-- A plain run under an unrecognised modern font. -/
def runPlain : RichTextRun :=
  { text := ['h', 'i'], font := some { family := "Calibri".data } }

/-- A mixed cell: one legacy-encoded run followed by one plain run. -/
def jobMixed : Job :=
  { sheetName := ['S'], axis := ['A', '1'], text := [],
    richText := [runLegacy, runPlain], isRich := true }

/-- A plain-text run with a nil font (as the dispatcher synthesises for
a cell whose style carries no font). -/
def runNoFont : RichTextRun := { text := "hello".data }

/-- A job holding only `runNoFont`. -/
def jobPlainRun : Job :=
  { sheetName := ['S'], axis := ['A', '2'], text := "hello".data,
    richText := [runNoFont], isRich := false }

/-- A one-sheet document used to exercise sheet validation. -/
def docOneSheet : Doc := { sheets := [{ name := ['S', '1'] }] }

end VniExcel

namespace VniExcel

/-- A rune recognised as a tone marker is none of the four runes
`tryCombineOther` reacts to. -/
theorem toneMarker_not_other {r : Char} {t : ToneType}
    (h : vniToneMarkers r = some t) :
    r ≠ 'Ñ' ∧ r ≠ 'ñ' ∧ r ≠ 'Å' ∧ r ≠ 'å' := by
  have hs : (vniToneMarkers r).isSome = true := by rw [h]; rfl
  refine ⟨?_, ?_, ?_, ?_⟩ <;> rintro rfl <;> exact absurd hs (by decide)

/-- `tryCombineOther` never fires on a recognised tone marker. -/
theorem tryCombineOther_of_marker (result : Str) {r : Char} {t : ToneType}
    (h : vniToneMarkers r = some t) :
    tryCombineOther result r = none := by
  obtain ⟨h1, h2, h3, h4⟩ := toneMarker_not_other h
  unfold tryCombineOther
  simp [h1, h2, h3, h4]

/-- Claim C1, amended.  Within the combining scan, a recognised tone
marker whose combination attempt fails outright (`tryCombineTone`
returns no update — in particular when the output buffer is empty, or
when a non-horn marker finds no table or special-case entry for the
preceding output rune) is appended to the output unchanged. -/
theorem claim1_stranded_marker_appended (result : Str) (r : Char)
    (t : ToneType) (hm : vniToneMarkers r = some t)
    (hf : tryCombineTone result r t = none) :
    convStep result r = result ++ [r] := by
  simp only [convStep, hm, hf, tryCombineOther_of_marker result hm]

/-- Witness for claim C1: the marker `Â` after the non-vowel `x`
combines with nothing and is appended as itself. -/
theorem claim1_witness :
    tryCombineTone ['x'] 'Â' ToneType.circumflex = none ∧
    convStep ['x'] 'Â' = ['x', 'Â'] :=
  ⟨by decide,
   claim1_stranded_marker_appended ['x'] 'Â' ToneType.circumflex
     (by decide) (by decide)⟩

/-- Counterexample to claim C1 as stated: over the full decoder
`ToUnicode`, the recognised tone marker `Ê` standing as the first rune
(hence with no preceding combination target) does not appear unchanged
in the final output — the legacy replacement pass rewrites it to `ấ`. -/
theorem claim1_counterexample :
    vniToneMarkers 'Ê' = some ToneType.circumflex ∧
    vniToUnicode ['Ê'] = ['ấ'] ∧ (['ấ'] : Str) ≠ ['Ê'] := by
  decide

/-- Claim C2: a tone marker following a vowel replaces the last output
rune in place (no append), the composed-vowel table is consulted before
the base-vowel table, and the three-rune sequence base `O`, circumflex
marker `Ô`, dot marker `Ï` decodes to the single rune `Ộ`. -/
theorem claim2_combine_replaces_last :
    (∀ (l : Str) (lastChar r : Char) (t : ToneType) (c : Char),
      combineToneStandard lastChar t = some c →
      tryCombineTone (l ++ [lastChar]) r t = some (l ++ [c])) ∧
    (∀ (lastChar : Char) (t : ToneType) (c : Char),
      combinedVowelTones lastChar t = some c →
      combineToneStandard lastChar t = some c) ∧
    vniToUnicode ['O', 'Ô', 'Ï'] = ['Ộ'] := by
  refine ⟨?_, ?_, by decide⟩
  · intro l lastChar r t c h
    simp only [tryCombineTone, List.getLast?_concat, h, List.dropLast_concat]
  · intro lastChar t c h
    simp only [combineToneStandard, h]

/-- Witness for claim C2 at concrete inputs: `Ô` + dot marker replaces
in place giving `Ộ`, and the composed-vowel entry for (`Ô`, dot) is
what `combineToneStandard` returns. -/
theorem claim2_witness :
    tryCombineTone ['Ô'] 'Ï' ToneType.dot = some ['Ộ'] ∧
    combineToneStandard 'Ô' ToneType.dot = some 'Ộ' :=
  ⟨claim2_combine_replaces_last.1 [] 'Ô' 'Ï' ToneType.dot 'Ộ' (by decide),
   claim2_combine_replaces_last.2.1 'Ô' ToneType.dot 'Ộ' (by decide)⟩

/-- Mapping a function that fixes every element of a list is the
identity on that list. -/
theorem map_fix_eq_self (f : Char → Char) (l : Str)
    (h : ∀ c ∈ l, f c = c) : l.map f = l := by
  induction l with
  | nil => rfl
  | cons x xs ih =>
    simp only [List.map_cons, h x (List.mem_cons_self x xs), List.cons.injEq,
      true_and]
    exact ih fun c hc => h c (List.mem_cons_of_mem x hc)

/-- `replaceSeq2` is the identity when the pattern's first rune never
occurs. -/
theorem replaceSeq2_id (a b : Char) (rep : Str) (l : Str)
    (h : ∀ c ∈ l, c ≠ a) : replaceSeq2 a b rep l = l := by
  induction l with
  | nil => rfl
  | cons x rest ih =>
    have hx : x ≠ a := h x (List.mem_cons_self x rest)
    match rest with
    | [] => rfl
    | y :: rest' =>
      have : ¬(x = a ∧ y = b) := fun hc => hx hc.1
      simp only [replaceSeq2, if_neg this, List.cons.injEq, true_and]
      exact ih fun c hc => h c (List.mem_cons_of_mem x hc)

/-- An inert rune just gets appended by the scan step. -/
theorem convStep_inert (acc : Str) (c : Char) (h : vniInert c = true) :
    convStep acc c = acc ++ [c] := by
  simp only [vniInert, Bool.and_eq_true] at h
  obtain ⟨⟨hm', hne'⟩, _⟩ := h
  have hm : vniToneMarkers c = none := Option.isNone_iff_eq_none.mp hm'
  have h1 : c ≠ 'Ñ' := by rintro rfl; exact absurd hne' (by decide)
  have h2 : c ≠ 'ñ' := by rintro rfl; exact absurd hne' (by decide)
  have h3 : c ≠ 'Å' := by rintro rfl; exact absurd hne' (by decide)
  have h4 : c ≠ 'å' := by rintro rfl; exact absurd hne' (by decide)
  simp [convStep, hm, tryCombineOther, h1, h2, h3, h4]

/-- The scan leaves a fully inert list untouched (appended after any
accumulator). -/
theorem foldl_convStep_inert (l : Str) :
    ∀ acc : Str, (∀ c ∈ l, vniInert c = true) →
      l.foldl convStep acc = acc ++ l := by
  induction l with
  | nil => intro acc _; simp
  | cons x xs ih =>
    intro acc h
    have hx := h x (List.mem_cons_self x xs)
    simp only [List.foldl_cons, convStep_inert acc x hx]
    rw [ih (acc ++ [x]) fun c hc => h c (List.mem_cons_of_mem x hc)]
    simp

/-- A tone marker is never inert (used to rule `Ö` out of inert text). -/
theorem inert_not_marker {c : Char} (h : vniInert c = true) :
    vniToneMarkers c = none := by
  simp only [vniInert, Bool.and_eq_true, Option.isNone_iff_eq_none] at h
  exact h.1.1

/-- Claim C3: on text containing no recognised legacy marker and no
substitution-table rune, both decoders return the input unchanged.
(Both functions are total by construction: they are plain Lean
functions defined for every input, mirroring the error-free Go
contract.) -/
theorem claim3_decoders_identity (l : Str)
    (h : ∀ c ∈ l, vniInert c = true ∧ tcvn3Inert c = true) :
    vniToUnicode l = l ∧ tcvn3ToUnicode l = l := by
  constructor
  · have hO : ∀ c ∈ l, c ≠ 'Ö' := by
      intro c hc hcO
      have := inert_not_marker (h c hc).1
      rw [hcO] at this
      exact absurd this (by decide)
    have hpre : preprocessVNI l = l := by
      unfold preprocessVNI
      rw [replaceSeq2_id 'Ö' 'Ô' _ l hO, replaceSeq2_id 'Ö' 'O' _ l hO,
        replaceSeq2_id 'Ö' 'ø' _ l hO]
    unfold vniToUnicode convertVNICombining
    rw [hpre, foldl_convStep_inert l [] fun c hc => (h c hc).1]
    simp only [List.nil_append]
    refine map_fix_eq_self _ _ fun c hc => ?_
    have := (h c hc).1
    simp only [vniInert, Bool.and_eq_true, beq_iff_eq] at this
    exact this.2
  · refine map_fix_eq_self _ _ fun c hc => ?_
    have := (h c hc).2
    simpa only [tcvn3Inert, beq_iff_eq] using this

/-- Witness for claim C3: plain ASCII text decodes to itself under both
decoders. -/
theorem claim3_witness :
    vniToUnicode ['h', 'i', ' ', '1'] = ['h', 'i', ' ', '1'] ∧
    tcvn3ToUnicode ['h', 'i', ' ', '1'] = ['h', 'i', ' ', '1'] :=
  claim3_decoders_identity ['h', 'i', ' ', '1'] (by decide)

/-- Neither vowel table carries a horn entry, so the standard
combination always fails on the horn tone. -/
theorem toneEntries_horn (cf gr ac ho ti dt : Option Char) :
    toneEntries cf gr ac ho ti dt ToneType.horn = none := rfl

theorem combineToneStandard_horn (c : Char) :
    combineToneStandard c ToneType.horn = none := by
  have h1 : combinedVowelTones c ToneType.horn = none := by
    simp only [combinedVowelTones, toneEntries_horn, ite_self]
  have h2 : vowelCombinations c ToneType.horn = none := by
    simp only [vowelCombinations, toneEntries_horn, ite_self]
  simp only [combineToneStandard, h1, h2]

/-- Claim C4: a horn marker with a non-empty output buffer always
resolves through the special rule — to the fixed glyph `ệ` when the
preceding output rune is a key of either vowel table, else to the
standalone horned vowel whose case mirrors the marker's. -/
theorem claim4_horn_tie_break (result : Str) (r : Char)
    (hne : result ≠ []) (hr : r = 'Ö' ∨ r = 'ö') :
    tryCombineTone result r ToneType.horn =
      some (result ++
        [if checkPrevVowel result then 'ệ' else if r = 'Ö' then 'Ư' else 'ư']) := by
  obtain ⟨lastChar, hl⟩ :=
    Option.isSome_iff_exists.mp (List.getLast?_isSome.mpr hne)
  have hstd := combineToneStandard_horn lastChar
  rcases hr with rfl | rfl <;>
    · simp only [tryCombineTone, hl, hstd, combineToneSpecial]
      by_cases hp : checkPrevVowel result
      · simp [hp]
      · simp [hp]

/-- Witness for claim C4: after the non-vowel `x` the horn marker gives
the standalone `Ư`; after the vowel `a` it gives the legacy `ệ`. -/
theorem claim4_witness :
    tryCombineTone ['x'] 'Ö' ToneType.horn = some ['x', 'Ư'] ∧
    tryCombineTone ['a'] 'ö' ToneType.horn = some ['a', 'ệ'] := by
  refine ⟨?_, ?_⟩
  · have h := claim4_horn_tie_break ['x'] 'Ö' (by decide) (Or.inl rfl)
    simpa using h
  · have h := claim4_horn_tie_break ['a'] 'ö' (by decide) (Or.inr rfl)
    simpa using h

/-- A font name with the TCVN3 prefix cannot carry the VNI prefix. -/
theorem tcvn3Prefix_not_vniPrefix (fn : Str)
    (h : tcvn3FontPrefix.isPrefixOf fn = true) :
    vniFontPrefix.isPrefixOf fn = false := by
  match fn with
  | [] => exact absurd h (by decide)
  | a :: as =>
    have ha : a = '.' := by
      simp only [tcvn3FontPrefix, List.isPrefixOf, Bool.and_eq_true,
        beq_iff_eq] at h
      exact h.1.symm
    subst ha
    simp [vniFontPrefix, List.isPrefixOf]

/-- Claim C5: the detector classifies by font-name prefix first (the
VNI prefix wins; the TCVN3 prefix wins regardless of text content);
only with no prefix match is the text consulted, the VNI character set
before the TCVN3 one, and Unknown results when neither matches. -/
theorem claim5_detector_priority (fn text : Str) :
    (vniFontPrefix.isPrefixOf fn = true → DetectEncoding fn text = .VNI) ∧
    (tcvn3FontPrefix.isPrefixOf fn = true → DetectEncoding fn text = .TCVN3) ∧
    (vniFontPrefix.isPrefixOf fn = false → tcvn3FontPrefix.isPrefixOf fn = false →
      DetectEncoding fn text =
        (if containsAnyChars text vniDetectChars then .VNI
         else if containsAnyChars text tcvn3DetectChars then .TCVN3
         else .Unknown)) := by
  refine ⟨fun h => ?_, fun h => ?_, fun h1 h2 => ?_⟩
  · simp [DetectEncoding, h]
  · simp [DetectEncoding, h, tcvn3Prefix_not_vniPrefix fn h]
  · simp [DetectEncoding, h1, h2]

/-- Witness for claim C5: a VNI font prefix wins over TCVN3-looking
content, a TCVN3 font prefix wins over VNI-looking content, and with no
prefix the content tiers decide. -/
theorem claim5_witness :
    DetectEncoding "VNI-X".data ['¹'] = .VNI ∧
    DetectEncoding ".VnX".data ['Â'] = .TCVN3 ∧
    DetectEncoding "Arial".data ['¹'] =
      (if containsAnyChars ['¹'] vniDetectChars then .VNI
       else if containsAnyChars ['¹'] tcvn3DetectChars then .TCVN3
       else .Unknown) :=
  ⟨(claim5_detector_priority "VNI-X".data ['¹']).1 (by decide),
   (claim5_detector_priority ".VnX".data ['Â']).2.1 (by decide),
   (claim5_detector_priority "Arial".data ['¹']).2.2 (by decide) (by decide)⟩

/-- Claim C6: a run whose encoding is detected Unknown is returned with
text and font untouched, and in every case the transformed run keeps
the input run's bold, italic and color attributes. -/
theorem claim6_unknown_and_attributes (run : RichTextRun) :
    (DetectEncoding (fontFamilyOf run) run.text = .Unknown →
      transformRun run = run) ∧
    boldOf (transformRun run) = boldOf run ∧
    italicOf (transformRun run) = italicOf run ∧
    colorOf (transformRun run) = colorOf run := by
  cases hdet : DetectEncoding (fontFamilyOf run) run.text <;>
    cases hfont : run.font <;>
      simp [transformRun, hdet, hfont, boldOf, italicOf, colorOf]

/-- Witness for claim C6: a plain run under an unmapped modern font is
returned identically, attributes included. -/
theorem claim6_witness :
    transformRun runPlain = runPlain ∧
    boldOf (transformRun runPlain) = boldOf runPlain ∧
    italicOf (transformRun runPlain) = italicOf runPlain ∧
    colorOf (transformRun runPlain) = colorOf runPlain :=
  ⟨(claim6_unknown_and_attributes runPlain).1 (by decide),
   (claim6_unknown_and_attributes runPlain).2.1,
   (claim6_unknown_and_attributes runPlain).2.2.1,
   (claim6_unknown_and_attributes runPlain).2.2.2⟩

/-- The detector never answers Auto. -/
theorem detect_ne_auto (fn text : Str) : DetectEncoding fn text ≠ .Auto := by
  unfold DetectEncoding
  split_ifs <;> simp

/-- Every value of the font-mapping table is a non-empty font name. -/
theorem fontMap_values_nonempty (fn m : Str) (h : FontMap fn = some m) :
    m ≠ [] := by
  unfold FontMap at h
  split_ifs at h
  all_goals first
    | exact Option.noConfusion h
    | (injection h with h'; subst h'; decide)

/-- On a rich-text job the worker emits one transformed run per input
run. -/
theorem workerProcess_newRuns (job : Job) (h : job.richText.length > 0) :
    (workerProcess job).newRuns = job.richText.map transformRun := by
  simp [workerProcess, h]

/-- Counterexample to claim C7 as stated: a job whose single run is
plain text with a nil font is classified Unknown, so the worker's
result keeps the run untouched and its font name is empty — the result
does contain a run with an empty font name. -/
theorem claim7_counterexample :
    (workerProcess jobPlainRun).newRuns = [runNoFont] ∧
    fontFamilyOf runNoFont = [] ∧
    ¬(∀ r ∈ (workerProcess jobPlainRun).newRuns, fontFamilyOf r ≠ []) := by
  decide

/-- Claim C7, amended.  A run whose encoding is detected (VNI or TCVN3,
not Unknown) appears transformed in the worker's result with a
non-empty font name: the table-mapped font when its original font name
has an entry, the fixed default Arial otherwise.  (A run classified
Unknown keeps its original font name, which may be empty.) -/
theorem claim7_decoded_run_font (job : Job) (run : RichTextRun)
    (hmem : run ∈ job.richText)
    (hdet : DetectEncoding (fontFamilyOf run) run.text ≠ .Unknown) :
    transformRun run ∈ (workerProcess job).newRuns ∧
    fontFamilyOf (transformRun run) ≠ [] ∧
    (∀ m, FontMap (fontFamilyOf run) = some m →
      fontFamilyOf (transformRun run) = m) ∧
    (FontMap (fontFamilyOf run) = none →
      fontFamilyOf (transformRun run) = arialFont) := by
  have hlen : job.richText.length > 0 := List.length_pos.mpr
    (List.ne_nil_of_mem hmem)
  have hfam : fontFamilyOf (transformRun run) =
      (match FontMap (fontFamilyOf run) with
       | some mapped => mapped
       | none => arialFont) := by
    cases hd : DetectEncoding (fontFamilyOf run) run.text
    case VNI => simp only [transformRun, hd]; simp [fontFamilyOf]
    case TCVN3 => simp only [transformRun, hd]; simp [fontFamilyOf]
    case Auto => exact absurd hd (detect_ne_auto _ _)
    case Unknown => exact absurd hd hdet
  refine ⟨?_, ?_, ?_, ?_⟩
  · rw [workerProcess_newRuns job hlen]
    exact List.mem_map_of_mem transformRun hmem
  · rw [hfam]
    cases hF : FontMap (fontFamilyOf run) with
    | some m => simpa using fontMap_values_nonempty _ m hF
    | none => simp [arialFont]
  · intro m hF
    rw [hfam, hF]
  · intro hF
    rw [hfam, hF]

/-- Witness for claim C7: the legacy run of the mixed job is decoded,
lands in the worker's result, and carries the table-mapped font. -/
theorem claim7_witness :
    transformRun runLegacy ∈ (workerProcess jobMixed).newRuns ∧
    fontFamilyOf (transformRun runLegacy) ≠ [] ∧
    fontFamilyOf (transformRun runLegacy) = "Times New Roman".data := by
  have h := claim7_decoded_run_font jobMixed runLegacy (by decide) (by decide)
  exact ⟨h.1, h.2.1, h.2.2.1 "Times New Roman".data (by decide)⟩

/-- Claim C8: the worker preserves run count (and order — output run i
is the transformation of input run i), and on the concrete mixed job
only the legacy run's text changes while the plain run passes through
identically. -/
theorem claim8_run_count_preserved :
    (∀ job : Job,
      ((workerProcess job).newRuns).length = job.richText.length) ∧
    (workerProcess jobMixed).newRuns =
      [{ text := ['á'], font := some { family := "Times New Roman".data } },
       runPlain] ∧
    (['á'] : Str) ≠ runLegacy.text := by
  refine ⟨fun job => ?_, by decide, by decide⟩
  by_cases h : job.richText.length > 0
  · rw [workerProcess_newRuns job h, List.length_map]
  · have hempty : job.richText = [] :=
      List.length_eq_zero.mp (Nat.eq_zero_of_not_pos h)
    simp [workerProcess, h, hempty]

/-- Claim C9: a non-empty requested sheet name absent from the document
makes the run model fail with the sheet-not-found error; the error is
produced by the validation step, before any job is built or any cell
is touched, so no result (and no document change) exists. -/
theorem claim9_missing_sheet_aborts (d : Doc) (requested : Str)
    (h1 : requested ≠ []) (h2 : requested ∉ sheetNames d) :
    RunModel d requested = .error ("sheet not found".data) := by
  simp [RunModel, selectSheets, h1, h2]

/-- Witness for claim C9: requesting sheet "S2" of a document whose
only sheet is "S1" errors out. -/
theorem claim9_witness :
    RunModel docOneSheet ['S', '2'] = .error ("sheet not found".data) :=
  claim9_missing_sheet_aborts docOneSheet ['S', '2'] (by decide) (by decide)

/-- The pre-pass substitutions never lengthen the text (each pattern is
two runes, each replacement at most two). -/
theorem replaceSeq2_length (a b : Char) (rep : Str) (hrep : rep.length ≤ 2) :
    ∀ n (l : Str), l.length ≤ n →
      (replaceSeq2 a b rep l).length ≤ l.length := by
  intro n
  induction n with
  | zero =>
    intro l hl
    have : l = [] := List.length_eq_zero.mp (Nat.le_zero.mp hl)
    subst this
    simp [replaceSeq2]
  | succ n ih =>
    intro l hl
    match l with
    | [] => simp [replaceSeq2]
    | [x] => simp [replaceSeq2]
    | x :: y :: rest =>
      by_cases hxy : x = a ∧ y = b
      · rw [show replaceSeq2 a b rep (x :: y :: rest) =
            rep ++ replaceSeq2 a b rep rest from by
          simp [replaceSeq2, hxy]]
        have hr : rest.length ≤ n := by
          simp only [List.length_cons] at hl; omega
        have := ih rest hr
        simp only [List.length_append, List.length_cons]
        omega
      · rw [show replaceSeq2 a b rep (x :: y :: rest) =
            x :: replaceSeq2 a b rep (y :: rest) from by
          simp [replaceSeq2, hxy]]
        have hr : (y :: rest).length ≤ n := by
          simp only [List.length_cons] at hl ⊢; omega
        have := ih (y :: rest) hr
        simp only [List.length_cons] at this ⊢
        omega

/-- The whole pre-pass never lengthens the text. -/
theorem preprocessVNI_length (l : Str) :
    (preprocessVNI l).length ≤ l.length := by
  unfold preprocessVNI
  have h1 := replaceSeq2_length 'Ö' 'Ô' ['Ư', 'Ơ'] (by decide) l.length l le_rfl
  have h2 := replaceSeq2_length 'Ö' 'O' ['Ư', 'Ơ'] (by decide)
    (replaceSeq2 'Ö' 'Ô' ['Ư', 'Ơ'] l).length _ le_rfl
  have h3 := replaceSeq2_length 'Ö' 'ø' ['Ừ'] (by decide)
    (replaceSeq2 'Ö' 'O' ['Ư', 'Ơ'] (replaceSeq2 'Ö' 'Ô' ['Ư', 'Ơ'] l)).length
    _ le_rfl
  omega

/-- The special marker rules grow the buffer by at most one rune. -/
theorem combineToneSpecial_length {result u : Str} {r : Char} {t : ToneType}
    (h : combineToneSpecial result r t = some u) :
    u.length ≤ result.length + 1 := by
  unfold combineToneSpecial at h
  by_cases h1 : (r = 'Ö' ∨ r = 'ö') ∧ t = ToneType.horn
  · rw [if_pos h1] at h
    split_ifs at h <;>
      (injection h with h'; subst h';
       simp only [List.length_append, List.length_cons, List.length_nil]; omega)
  · rw [if_neg h1] at h
    split at h
    · injection h with h'
      subst h'
      simp only [List.length_append, List.length_dropLast, List.length_cons,
        List.length_nil]
      omega
    · split at h
      · injection h with h'
        subst h'
        simp only [List.length_append, List.length_dropLast, List.length_cons,
          List.length_nil]
        omega
      · split at h
        · injection h with h'
          subst h'
          simp only [List.length_append, List.length_dropLast,
            List.length_cons, List.length_nil]
          omega
        · exact Option.noConfusion h

/-- A successful tone combination grows the buffer by at most one. -/
theorem tryCombineTone_length {result u : Str} {r : Char} {t : ToneType}
    (h : tryCombineTone result r t = some u) :
    u.length ≤ result.length + 1 := by
  unfold tryCombineTone at h
  split at h
  · exact Option.noConfusion h
  · split at h
    · injection h with h'
      subst h'
      simp only [List.length_append, List.length_dropLast, List.length_cons,
        List.length_nil]
      omega
    · exact combineToneSpecial_length h

/-- The Đ/đ and breve rules grow the buffer by at most one. -/
theorem tryCombineOther_length {result u : Str} {r : Char}
    (h : tryCombineOther result r = some u) :
    u.length ≤ result.length + 1 := by
  unfold tryCombineOther at h
  split_ifs at h <;> first
    | exact Option.noConfusion h
    | (injection h with h'; subst h';
       simp only [List.length_append, List.length_dropLast, List.length_cons,
         List.length_nil];
       omega)

/-- Each scan step consumes one rune and emits at most one. -/
theorem convStep_length (acc : Str) (c : Char) :
    (convStep acc c).length ≤ acc.length + 1 := by
  unfold convStep
  split
  · rename_i u heq
    split at heq
    · exact tryCombineTone_length heq
    · exact Option.noConfusion heq
  · split
    · rename_i u2 h2
      exact tryCombineOther_length h2
    · simp only [List.length_append, List.length_cons, List.length_nil]
      omega

/-- The scan's output length is bounded by accumulator plus input. -/
theorem foldl_convStep_length (l : Str) :
    ∀ acc : Str, (l.foldl convStep acc).length ≤ acc.length + l.length := by
  induction l with
  | nil => intro acc; simp
  | cons x xs ih =>
    intro acc
    simp only [List.foldl_cons, List.length_cons]
    have h1 := ih (convStep acc x)
    have h2 := convStep_length acc x
    omega

/-- Claim C10: the full VNI decoder never lengthens its input — the
pre-pass and the final substitution preserve or shrink the rune count
and every scan step appends at most one rune. -/
theorem claim10_output_no_longer (l : Str) :
    (vniToUnicode l).length ≤ l.length := by
  unfold vniToUnicode convertVNICombining
  rw [List.length_map]
  have h1 := foldl_convStep_length (preprocessVNI l) []
  have h2 := preprocessVNI_length l
  simp only [List.length_nil] at h1
  omega

end VniExcel
